import Mathlib

/-!
# Verification of cert-monitor-lambda's incremental sync and matching engine

A shallow embedding, in Lean 4, of the Go program `cert-monitor-lambda`
(files `main.go` and `config.go`): a CT-log monitor that periodically
compares each log's current tree size against a persisted per-log
watermark, fetches the unseen entry range, decodes entries, matches their
DNS names against configured domain and regex rules, writes matching
entries to S3 and persists the updated watermark map once at run end.

External collaborators (the CT log transport, S3, the log-list catalog,
regex compilation, decoding of leaf entries, wall-clock time and random
key material) are modelled as explicit environment records supplied to the
embedded functions; the control flow of `Handler`, `processLog` and
`nameMatches` is translated from the source.  The concurrent fan-out /
fan-in of `Handler` is rendered sequentially: results are merged into the
watermark map only by the coordinator after each task terminates, the
merge is keyed by URL and hence order-insensitive, and a fatal error
returns before the single state write in every schedule, so the
sequential rendering produces the same observable outcome.

Machine integers (`uint64` tree sizes, `int64` range bounds) are modelled
as `Nat`: no quantity here approaches `2^63`, and the source performs no
wrap-around arithmetic on them.
-/

namespace CertMonitor

/-- Go `strings.HasSuffix(s, suf)`:
`len(s) >= len(suf) && s[len(s)-len(suf):] == suf`, modelled on the
character list of the string. -/
def goHasSuffix (s suf : String) : Bool :=
  decide (suf.data.length ≤ s.data.length) &&
    (s.data.drop (s.data.length - suf.data.length) == suf.data)

/-- The per-rule domain test from `nameMatches`:
`strings.HasSuffix(name, lookingFor) && (name == lookingFor || strings.HasSuffix(name, "." + lookingFor))`. -/
def domainRuleMatches (name lookingFor : String) : Bool :=
  goHasSuffix name lookingFor &&
    (name == lookingFor || goHasSuffix name ("." ++ lookingFor))

/-- A compiled pattern: its Go source text (used in the rule descriptor
`pattern-<expr>`) together with its matching function, which is opaque to
this program (an external collaborator: Go's `regexp`). -/
structure GoRegex where
  src : String
  test : String → Bool

/-- Config (from `config.go`): monitored domains, regex pattern sources,
and whether precertificate entries are also matched. -/
structure Config where
  domains : List String
  patterns : List String
  includePreCerts : Bool

/-- An x509 certificate, reduced to the only field the matching engine
reads: its DNS names. -/
structure Cert where
  dnsNames : List String
deriving DecidableEq

/-- First domain rule (in configured order) that a name matches, inner
loop of `nameMatches`. -/
def firstDomainHit (domains : List String) (name : String) : Option String :=
  match domains with
  | [] => none
  | d :: ds => if domainRuleMatches name d then some d else firstDomainHit ds name

/-- First regex pattern (in configured order) matching a name, second
inner loop of `nameMatches`. -/
def firstPatternHit (pats : List GoRegex) (name : String) : Option String :=
  match pats with
  | [] => none
  | p :: ps => if p.test name then some p.src else firstPatternHit ps name

/-- `nameMatches` over one candidate name: domain rules first, then regex
rules, returning the rule descriptor string of the first hit. -/
def nameRuleHit (conf : Config) (pats : List GoRegex) (name : String) : Option String :=
  match firstDomainHit conf.domains name with
  | some d => some ("domain-" ++ d)
  | none =>
    match firstPatternHit pats name with
    | some p => some ("pattern-" ++ p)
    | none => none

/-- `(s *server) nameMatches(c)`: iterate the certificate's DNS names in
order; for each, try every domain rule then every pattern; first hit wins
and returns `(true, name, ruleDescriptor)`; no hit returns
`(false, "", "")`. -/
def nameMatches (conf : Config) (pats : List GoRegex) (c : Cert) :
    Bool × String × String :=
  go c.dnsNames
where
  go : List String → Bool × String × String
  | [] => (false, "", "")
  | n :: ns =>
    match nameRuleHit conf pats n with
    | some descr => (true, n, descr)
    | none => go ns

/-- Per-log persisted state (`LogState` in the source): URL, operator,
description, `LastFetched` tree size (the watermark) and the time it was
last set (modelled as a `Nat` tick). -/
structure LogState where
  url : String
  operator : String
  description : String
  lastFetched : Nat
  lastFetchedTime : Nat
deriving DecidableEq

/-- A raw leaf entry as returned by get-entries; its payload is opaque to
the orchestrator (only the decoder and `json.Marshal` look inside), so it
is modelled as a token. -/
structure RawEntry where
  tag : Nat
deriving DecidableEq

/-- A decoded precertificate: the matcher only reads the TBS
certificate. -/
structure Precert where
  tbsCertificate : Cert
deriving DecidableEq

/-- The decoded `ct.LogEntry`: `X509Cert` and `Precert` are each possibly
nil pointers in Go, hence `Option`s. -/
structure CTLogEntry where
  x509Cert : Option Cert
  precert : Option Precert
deriving DecidableEq

/-- Result of `ct.LogEntryFromLeaf` as consumed by `processLog`: the code
only branches on `x509.IsFatal(err)`. When the error is fatal the entry
pointer is nil and the field `entry` is unused; a non-fatal error still
yields a usable entry, which is why `entry` is total. -/
structure Decoded where
  isFatal : Bool
  entry : CTLogEntry
deriving DecidableEq

/-- Observable external calls made by one per-log task. -/
inductive CallEv where
  /-- `lc.GetSTH(ctx)` -/
  | getSTH
  /-- `lc.GetRawEntries(ctx, start, end)`: the two arguments the code
  passes. -/
  | getRawEntries (first last : Nat)
  /-- `s3.PutObject` of one matched entry, recording the matched name,
  the rule descriptor and whether the write succeeded. -/
  | putArtifact (name descr : String) (ok : Bool)
deriving DecidableEq

/-- Fatal (task-aborting) error causes inside `processLog`: these are the
`return nil, err` paths. -/
inductive TaskErr where
  | newClientErr
  | marshalEntryErr
  | putCertErr
deriving DecidableEq

/-- Environment of one per-log task: every external collaborator
`processLog` talks to.  `sth = none` models a transport error on the
size query; `fetch first last = none` a transport error on the range
fetch; `decode` is the CT decoder; `putOk k` tells whether the `k`-th
artifact write of this task succeeds; `marshalOk` whether
`json.Marshal(entry)` succeeds; `now` the wall clock. -/
structure LogEnv where
  newClientOk : Bool
  sth : Option Nat
  fetch : Nat → Nat → Option (List RawEntry)
  decode : Nat → RawEntry → Decoded
  marshalOk : RawEntry → Bool
  putOk : Nat → Bool
  now : Nat

/-- Accumulator of the entry loop of `processLog`: `entriesSeen` (the
counter logged on exit), the number of artifact writes so far (indexing
`putOk`), the call trace and the successfully written artifacts
`(name, ruleDescriptor)`. -/
structure EntryAcc where
  entriesSeen : Nat
  writeCount : Nat
  calls : List CallEv
  artifacts : List (String × String)
deriving DecidableEq

/-- Certificate-payload selection of the entry loop: `cert` is the
primary certificate (`X509Cert`, possibly nil), overridden by the
precertificate's TBS form when `IncludePreCerts` is set and a precert is
present. -/
def selectCert (conf : Config) (le : CTLogEntry) : Option Cert :=
  match le.precert with
  | some pc => if conf.includePreCerts then some pc.tbsCertificate else le.x509Cert
  | none => le.x509Cert

/-- One iteration of the entry loop body on the already-decoded entry
(everything after the `x509.IsFatal` guard): select the certificate
payload, run `nameMatches`, and on a match marshal and write the
artifact.  Returns the updated accumulator or the fatal error that
aborts the task. -/
def entryBody (conf : Config) (pats : List GoRegex) (env : LogEnv)
    (e : RawEntry) (le : CTLogEntry) (acc : EntryAcc) :
    EntryAcc ⊕ (EntryAcc × TaskErr) :=
  match selectCert conf le with
  | none => .inl acc
  | some cert =>
    match nameMatches conf pats cert with
    | (false, _, _) => .inl acc
    | (true, name, descr) =>
      if env.marshalOk e then
        let ok := env.putOk acc.writeCount
        let acc := { acc with
          calls := acc.calls ++ [.putArtifact name descr ok] }
        if ok then
          .inl { acc with
            writeCount := acc.writeCount + 1
            artifacts := acc.artifacts ++ [(name, descr)] }
        else .inr (acc, .putCertErr)
      else .inr (acc, .marshalEntryErr)

/-- The `for i, entry := range rawEntries.Entries` loop of `processLog`:
`idx` is `start + i`, each entry bumps `entriesSeen`, a fatal decode
error (`x509.IsFatal`) skips the entry via `continue`, and a failed
marshal or artifact write aborts the task, returning the error alongside
the accumulator reached so far. -/
def procEntries (conf : Config) (pats : List GoRegex) (env : LogEnv) :
    Nat → List RawEntry → EntryAcc → EntryAcc × Option TaskErr
  | _, [], acc => (acc, none)
  | idx, e :: es, acc =>
    let acc := { acc with entriesSeen := acc.entriesSeen + 1 }
    let d := env.decode idx e
    if d.isFatal then
      procEntries conf pats env (idx + 1) es acc
    else
      match entryBody conf pats env e d.entry acc with
      | .inl acc => procEntries conf pats env (idx + 1) es acc
      | .inr (acc, err) => (acc, some err)

/-- Result of one per-log task: the Go pair `(*LogState, error)` —
`.ok` is a non-nil state with nil error (also the soft-failure outcomes),
`.error` a nil state with a fatal error — together with the call trace,
the `entriesSeen` counter and the written artifacts. -/
structure ProcResult where
  out : Except TaskErr LogState
  calls : List CallEv
  entriesSeen : Nat
  artifacts : List (String × String)

/-- `(s *server) processLog(ctx, lgr, state)` translated from the source:
client creation, `GetSTH` (soft-fail on error), the first-observation
initialisation path, the unchanged path, `GetRawEntries(start, treeSize)`
with `start = LastFetched + 1` (soft-fail on error), the entry loop, and
the final watermark advance to `TreeSize`. -/
def processLog (conf : Config) (pats : List GoRegex) (env : LogEnv)
    (state : LogState) : ProcResult :=
  if env.newClientOk then
    match env.sth with
    | none => ⟨.ok state, [.getSTH], 0, []⟩
    | some treeSize =>
      if state.lastFetched = 0 then
        ⟨.ok { state with lastFetched := treeSize, lastFetchedTime := env.now },
          [.getSTH], 0, []⟩
      else if treeSize = state.lastFetched then
        ⟨.ok state, [.getSTH], 0, []⟩
      else
        let start := state.lastFetched + 1
        match env.fetch start treeSize with
        | none => ⟨.ok state, [.getSTH, .getRawEntries start treeSize], 0, []⟩
        | some entries =>
          let (acc, err?) := procEntries conf pats env start entries ⟨0, 0, [], []⟩
          let calls := [CallEv.getSTH, .getRawEntries start treeSize] ++ acc.calls
          match err? with
          | some err => ⟨.error err, calls, acc.entriesSeen, acc.artifacts⟩
          | none =>
            ⟨.ok { state with lastFetched := treeSize, lastFetchedTime := env.now },
              calls, acc.entriesSeen, acc.artifacts⟩
  else ⟨.error .newClientErr, [], 0, []⟩

/-- One log record of the log-list catalog, reduced to what `Handler`
reads: URL, operator name, description, and whether
`log.State.LogStatus() == loglist3.UsableLogStatus`. -/
structure LogRec where
  url : String
  operator : String
  description : String
  usable : Bool
deriving DecidableEq

/-- The watermark map `LogStates` (`map[string]*LogState`), modelled as an
association list keyed by URL. -/
def LogStates := List (String × LogState)

/-- Map lookup `states[log.URL]` (nil when absent). -/
def lookupState (states : LogStates) (url : String) : Option LogState :=
  match states with
  | [] => none
  | (k, v) :: rest => if k = url then some v else lookupState rest url

/-- Map update `states[state.URL] = state`. -/
def updateState (states : LogStates) (url : String) (st : LogState) : LogStates :=
  match states with
  | [] => [(url, st)]
  | (k, v) :: rest =>
    if k = url then (k, st) :: rest else (k, v) :: updateState rest url st

/-- Fatal error causes surfaced by `Handler` (its `return err` paths). -/
inductive RunErr where
  | noBucketErr
  | awsConfigErr
  | loadConfigErr
  | fetchLogListErr
  | compileErr (pat : String)
  | taskErr (e : TaskErr)
  | marshalStatesErr
  | putStatesErr
deriving DecidableEq

/-- Environment of one run: every external collaborator `Handler` talks
to.  `confLoad`, `stateLoad` and `listLoad` are the three concurrent
startup fetches (`none` = that loader returned an error); `compile` is
Go's `regexp.Compile` (`none` = invalid pattern, `some` the compiled
matcher); `logEnv` gives each log URL its per-task environment;
`marshalStatesOk`/`putStatesOk` govern the final state write. -/
structure RunEnv where
  bucketSet : Bool
  awsOk : Bool
  confLoad : Option Config
  stateLoad : Option LogStates
  listLoad : Option (List LogRec)
  compile : String → Option (String → Bool)
  logEnv : String → LogEnv
  marshalStatesOk : Bool
  putStatesOk : Bool

/-- The pattern-compilation loop of `Handler`: compile each configured
pattern in order, failing the run on the first invalid one (the source
returns that error immediately). -/
def compilePatterns (compile : String → Option (String → Bool)) :
    List String → Except RunErr (List GoRegex)
  | [] => .ok []
  | p :: ps =>
    match compile p with
    | none => .error (.compileErr p)
    | some f =>
      match compilePatterns compile ps with
      | .error e => .error e
      | .ok rest => .ok (⟨p, f⟩ :: rest)

/-- The fan-out loop of `Handler`: each usable log is paired with its
prior watermark from the loaded map, or with a fresh zero state (URL,
operator, description, `LastFetched = 0`) when absent. -/
def launchStates (states : LogStates) (logs : List LogRec) :
    List (LogRec × LogState) :=
  logs.filterMap fun l =>
    if l.usable then
      some (l, (lookupState states l.url).getD
        { url := l.url, operator := l.operator, description := l.description,
          lastFetched := 0, lastFetchedTime := 0 })
    else none

/-- The fan-in loop of `Handler`, rendered sequentially: run each task,
merge each successful outcome into the watermark map keyed by its URL,
and abort on the first fatal task error (`return err`), also returning
the per-log call traces made so far. -/
def runTasks (conf : Config) (pats : List GoRegex) (renv : RunEnv) :
    List (LogRec × LogState) → LogStates →
    (List (String × CallEv)) × Except RunErr LogStates
  | [], states => ([], .ok states)
  | (l, st) :: rest, states =>
    let r := processLog conf pats (renv.logEnv l.url) st
    let trace := r.calls.map fun c => (l.url, c)
    match r.out with
    | .error e => (trace, .error (.taskErr e))
    | .ok outState =>
      let (t, res) := runTasks conf pats renv rest (updateState states outState.url outState)
      (trace ++ t, res)

/-- Result of one run: Go's returned `error` (as `Except`), the calls the
tasks made to log sources, whether the final `PutObject` of the state
file was attempted, and the map it durably wrote (`none` when nothing was
persisted). -/
structure RunResult where
  out : Except RunErr Unit
  logCalls : List (String × CallEv)
  statesPutAttempted : Bool
  statesWritten : Option LogStates

/-- `(s *server) Handler(evt)` translated from the source: bucket check,
AWS config, the three concurrent loads (config and log-list errors are
fatal; a state-load error is logged and replaced by an empty map),
pattern compilation (fatal on first invalid pattern), fan-out over usable
logs, fan-in with first-fatal-error abort, and the single final write of
the merged watermark map. -/
def handler (renv : RunEnv) : RunResult :=
  if renv.bucketSet then
    if renv.awsOk then
      match renv.confLoad with
      | none => ⟨.error .loadConfigErr, [], false, none⟩
      | some conf =>
        match renv.listLoad with
        | none => ⟨.error .fetchLogListErr, [], false, none⟩
        | some logList =>
          let states := renv.stateLoad.getD []
          match compilePatterns renv.compile conf.patterns with
          | .error e => ⟨.error e, [], false, none⟩
          | .ok pats =>
            let (trace, res) := runTasks conf pats renv (launchStates states logList) states
            match res with
            | .error e => ⟨.error e, trace, false, none⟩
            | .ok finalStates =>
              if renv.marshalStatesOk then
                if renv.putStatesOk then
                  ⟨.ok (), trace, true, some finalStates⟩
                else ⟨.error .putStatesErr, trace, true, none⟩
              else ⟨.error .marshalStatesErr, trace, false, none⟩
    else ⟨.error .awsConfigErr, [], false, none⟩
  else ⟨.error .noBucketErr, [], false, none⟩

/-! ### Concrete fixtures used by witnesses and counterexamples -/

/-- A config monitoring `google.com` with no regex patterns. -/
def confA : Config :=
  { domains := ["google.com"], patterns := [], includePreCerts := false }

/-- A decoded entry carrying a certificate for `www.google.com`. -/
def googleEntry : CTLogEntry :=
  { x509Cert := some { dnsNames := ["www.google.com"] }, precert := none }

/-- A decoded entry carrying a certificate for an unmonitored name. -/
def otherEntry : CTLogEntry :=
  { x509Cert := some { dnsNames := ["irrelevant.example"] }, precert := none }

/-- A task environment whose log reports size 42 and is otherwise
quiet. -/
def envInit : LogEnv :=
  { newClientOk := true, sth := some 42, fetch := fun _ _ => none,
    decode := fun _ _ => ⟨false, otherEntry⟩, marshalOk := fun _ => true,
    putOk := fun _ => true, now := 7 }

/-- A task environment whose size query fails (transport error). -/
def envSthErr : LogEnv :=
  { envInit with sth := none }

/-- A task environment that reports size 15 but whose range fetch fails. -/
def envFetchErr : LogEnv :=
  { envInit with sth := some 15 }

/-- A prior watermark at tree size 10. -/
def stWm10 : LogState :=
  { url := "https://log.example/", operator := "Op", description := "a log",
    lastFetched := 10, lastFetchedTime := 3 }

/-- A fresh state: no prior fetch recorded (`LastFetched == 0`). -/
def stFresh : LogState :=
  { stWm10 with lastFetched := 0 }

/-- A task environment for a log that has grown to size 15, serving four
non-matching entries on the range request the code actually makes. -/
def envGrow15 : LogEnv :=
  { newClientOk := true, sth := some 15,
    fetch := fun a b =>
      if a = 11 ∧ b = 15 then some [⟨11⟩, ⟨12⟩, ⟨13⟩, ⟨14⟩] else none,
    decode := fun _ _ => ⟨false, otherEntry⟩,
    marshalOk := fun _ => true, putOk := fun _ => true, now := 9 }

/-- A task environment for a log grown from 10 to 12 where the entry at
index 11 hits a fatal decode error and the entry at index 12 decodes into
a certificate for `www.google.com`. -/
def envFatalDecode : LogEnv :=
  { newClientOk := true, sth := some 12,
    fetch := fun _ _ => some [⟨0⟩, ⟨1⟩],
    decode := fun idx _ =>
      if idx = 11 then ⟨true, otherEntry⟩ else ⟨false, googleEntry⟩,
    marshalOk := fun _ => true, putOk := fun _ => true, now := 9 }

/-- A task environment (log grown from 10 to 12) where every entry
decodes with a fatal error. -/
def envAllFatal : LogEnv :=
  { envFatalDecode with decode := fun _ _ => ⟨true, otherEntry⟩ }

/-- A task environment for a log grown to size 15 whose range request
returns a truncated batch of a single entry (fewer than the size
gap). -/
def envTruncated : LogEnv :=
  { envGrow15 with fetch := fun _ _ => some [⟨11⟩] }

/-- The watermark this log ends up with after one run, as persisted: a
successful task outcome is merged into the state map and written; a
fatal task error aborts the run before the state file is written, so the
previously persisted watermark remains. -/
def persistedAfter (conf : Config) (pats : List GoRegex) (env : LogEnv)
    (state : LogState) : LogState :=
  match (processLog conf pats env state).out with
  | .ok out => out
  | .error _ => state

/-- The persisted watermark of one log across a sequence of runs, the
run environments given per run. -/
def runSeq (conf : Config) (pats : List GoRegex) :
    List LogEnv → LogState → LogState
  | [], st => st
  | env :: envs, st => runSeq conf pats envs (persistedAfter conf pats env st)

/-- The append-only environment assumption of the spec's data model
("current known size (monotonic counter)"): at each run, whatever size
the log reports is at least the watermark persisted so far. -/
def sizesOK (conf : Config) (pats : List GoRegex) :
    LogState → List LogEnv → Bool
  | _, [] => true
  | st, env :: envs =>
    (match env.sth with
     | none => true
     | some n => decide (st.lastFetched ≤ n)) &&
      sizesOK conf pats (persistedAfter conf pats env st) envs

/-- A usable catalog record for log A. -/
def logRecA : LogRec :=
  { url := "https://log-a.example/", operator := "OpA",
    description := "log a", usable := true }

/-- A usable catalog record for log B. -/
def logRecB : LogRec :=
  { url := "https://log-b.example/", operator := "OpB",
    description := "log b", usable := true }

/-- Log A's prior watermark at size 10. -/
def stA10 : LogState :=
  { stWm10 with url := logRecA.url, operator := logRecA.operator }

/-- Log B's prior watermark at size 10. -/
def stB10 : LogState :=
  { stWm10 with url := logRecB.url, operator := logRecB.operator }

/-- A task environment serving one matching entry whose artifact write
fails. -/
def envPutFail : LogEnv :=
  { newClientOk := true, sth := some 12, fetch := fun _ _ => some [⟨0⟩],
    decode := fun _ _ => ⟨false, googleEntry⟩, marshalOk := fun _ => true,
    putOk := fun _ => false, now := 9 }

/-- A baseline run environment: one usable log with a prior watermark,
all loads succeed, every pattern compiles. -/
def renvBase : RunEnv :=
  { bucketSet := true, awsOk := true, confLoad := some confA,
    stateLoad := some [(logRecA.url, stA10)], listLoad := some [logRecA],
    compile := fun _ => some (fun _ => false),
    logEnv := fun _ => envInit,
    marshalStatesOk := true, putStatesOk := true }

/-- A run whose config load fails. -/
def renvConfErr : RunEnv :=
  { renvBase with confLoad := none }

/-- A run over two logs where log A soft-fails its size query and log B
hits a failing artifact write on a matching entry. -/
def renvPutFail : RunEnv :=
  { renvBase with
    listLoad := some [logRecA, logRecB],
    stateLoad := some [(logRecA.url, stA10), (logRecB.url, stB10)],
    logEnv := fun url => if url = logRecA.url then envSthErr else envPutFail }

/-- A run whose config contains one invalid regex pattern. -/
def renvBadPattern : RunEnv :=
  { renvBase with
    confLoad := some { confA with patterns := ["("] },
    compile := fun p => if p = "(" then none else some (fun _ => false) }

/-! ## Theorems -/

/-- Go's `strings.HasSuffix` agrees with the list suffix relation on the
string's characters. -/
theorem goHasSuffix_iff (s suf : String) :
    goHasSuffix s suf = true ↔ suf.data <:+ s.data := by
  unfold goHasSuffix
  simp only [Bool.and_eq_true, decide_eq_true_eq, beq_iff_eq]
  constructor
  · rintro ⟨-, hdrop⟩
    exact hdrop ▸ List.drop_suffix _ _
  · rintro ⟨t, ht⟩
    have hlen : s.data.length = t.length + suf.data.length := by
      rw [← ht, List.length_append]
    constructor
    · omega
    · have : s.data.length - suf.data.length = t.length := by omega
      rw [this, ← ht, List.drop_left]

/-- C1: for every candidate DNS name `n` and every configured domain rule
`R`, the rule engine's domain matching holds iff `n` equals `R` exactly or
`n` ends with `"." ++ R`; in particular `"evilgoogle.com"` does not match
rule `"google.com"`, while `"www.google.com"` and `"google.com"` both
match it. -/
theorem domain_matching_suffix_boundary :
    (∀ n R : String, domainRuleMatches n R = true ↔
      (n = R ∨ ("." ++ R).data <:+ n.data)) ∧
    domainRuleMatches "evilgoogle.com" "google.com" = false ∧
    domainRuleMatches "www.google.com" "google.com" = true ∧
    domainRuleMatches "google.com" "google.com" = true := by
  refine ⟨?_, by decide, by decide, by decide⟩
  intro n R
  unfold domainRuleMatches
  simp only [Bool.and_eq_true, Bool.or_eq_true, beq_iff_eq, goHasSuffix_iff]
  constructor
  · rintro ⟨-, h | h⟩
    · exact Or.inl h
    · exact Or.inr h
  · intro h
    refine ⟨?_, ?_⟩
    · rcases h with rfl | h
      · exact List.suffix_refl _
      · refine List.IsSuffix.trans ?_ h
        rw [String.data_append]
        exact List.suffix_append _ _
    · rcases h with rfl | h
      · exact Or.inl rfl
      · exact Or.inr h

/-- C1 witness: the matching equivalence instantiated at a concrete name
and rule. -/
theorem domain_matching_suffix_boundary_witness :
    domainRuleMatches "www.google.com" "google.com" = true ↔
      ("www.google.com" = "google.com" ∨
        ("." ++ "google.com").data <:+ "www.google.com".data) :=
  domain_matching_suffix_boundary.1 "www.google.com" "google.com"

/-- C3: when no prior fetch is recorded (`LastFetched == 0`) and the size
query succeeds, the task stores the current size and the current time in
the watermark and terminates having made only the `GetSTH` call — in
particular it never calls `GetRawEntries`. -/
theorem first_sync_only_queries_size (conf : Config) (pats : List GoRegex)
    (env : LogEnv) (state : LogState) (hnew : env.newClientOk = true)
    (h0 : state.lastFetched = 0) (n : Nat) (hsth : env.sth = some n) :
    (processLog conf pats env state).out =
      .ok { state with lastFetched := n, lastFetchedTime := env.now } ∧
    (processLog conf pats env state).calls = [.getSTH] := by
  unfold processLog
  rw [hnew, hsth]
  simp [h0]

/-- C3 witness: a fresh log of size 42 initialises its watermark to 42
without fetching. -/
theorem first_sync_only_queries_size_witness :
    (processLog confA [] envInit stFresh).out =
      .ok { stFresh with lastFetched := 42, lastFetchedTime := envInit.now } ∧
    (processLog confA [] envInit stFresh).calls = [.getSTH] :=
  first_sync_only_queries_size confA [] envInit stFresh rfl rfl 42 rfl

/-- C5: a transport error on the size query, or on the range fetch, is a
soft failure: the task's outcome is the prior watermark unchanged with no
error (so the run is not aborted); concretely, a run whose only log
soft-fails still completes and persists that log's unchanged
watermark. -/
theorem transport_error_soft_fails (conf : Config) (pats : List GoRegex)
    (env : LogEnv) (state : LogState) (hnew : env.newClientOk = true) :
    (env.sth = none → (processLog conf pats env state).out = .ok state) ∧
    (∀ ts, env.sth = some ts → state.lastFetched ≠ 0 →
      ts ≠ state.lastFetched →
      env.fetch (state.lastFetched + 1) ts = none →
      (processLog conf pats env state).out = .ok state) := by
  constructor
  · intro hsth
    unfold processLog
    rw [hnew, hsth]
    rfl
  · intro ts hsth h0 hts hfetch
    unfold processLog
    rw [hnew, hsth]
    simp [h0, hfetch]
    split <;> rfl

/-- C5 witness: both soft-failure paths evaluated on a watermark-10 log:
a failed size query and a failed range fetch each return the unchanged
state with no error. -/
theorem transport_error_soft_fails_witness :
    (processLog confA [] envSthErr stWm10).out = .ok stWm10 ∧
    (processLog confA [] envFetchErr stWm10).out = .ok stWm10 :=
  ⟨(transport_error_soft_fails confA [] envSthErr stWm10 rfl).1 rfl,
   (transport_error_soft_fails confA [] envFetchErr stWm10 rfl).2 15 rfl
     (by decide) (by decide) rfl⟩

/-- C2 (evaluation at the failing input): with prior watermark
`lastFetched = 10` and current size 15 the advance step issues
`GetRawEntries(11, 15)` — the requested range begins at index 11, not at
`lastFetchedSize = 10`, so the entry at index 10 is never requested
(under the RFC 6962 inclusive-`end` convention of `GetRawEntries` the
request covers `{11..15}`, which moreover names index 15, one past the
last existing entry); the watermark nonetheless advances to 15, so index
10 is also skipped by every later run. -/
theorem advance_requests_range_starting_at_eleven :
    (processLog confA [] envGrow15 stWm10).calls =
      [.getSTH, .getRawEntries 11 15] ∧
    (processLog confA [] envGrow15 stWm10).out =
      .ok { stWm10 with lastFetched := 15, lastFetchedTime := 9 } :=
  ⟨rfl, rfl⟩

/-- C4 counterexample: the first fetched entry (index 11) has a fatal
decode error, yet the task does not abort its remaining entries — the
next entry (index 12) is still decoded, matched and written as an
artifact, and the task completes normally with `entriesSeen = 2`. -/
theorem fatal_decode_does_not_abort_remaining :
    (envFatalDecode.decode 11 ⟨0⟩).isFatal = true ∧
    (processLog confA [] envFatalDecode stWm10).entriesSeen = 2 ∧
    (processLog confA [] envFatalDecode stWm10).artifacts =
      [("www.google.com", "domain-google.com")] ∧
    (processLog confA [] envFatalDecode stWm10).out =
      .ok { stWm10 with lastFetched := 12, lastFetchedTime := 9 } :=
  ⟨rfl, rfl, rfl, rfl⟩

/-- Helper: a batch in which every entry decodes with a fatal error is
wholly skipped — every entry is counted, nothing else changes, and no
task error arises. -/
theorem procEntries_all_fatal (conf : Config) (pats : List GoRegex)
    (env : LogEnv) (es : List RawEntry) :
    ∀ idx acc, (∀ i e, (env.decode i e).isFatal = true) →
      procEntries conf pats env idx es acc =
        ({ acc with entriesSeen := acc.entriesSeen + es.length }, none) := by
  induction es with
  | nil => intro idx acc _; simp [procEntries]
  | cons e es ih =>
    intro idx acc h
    simp only [procEntries, h idx e, if_true, List.length_cons]
    rw [ih (idx + 1) _ h]
    simp only [Prod.mk.injEq, EntryAcc.mk.injEq, and_true, true_and, and_self]
    omega

/-- C4 (amended): (a) an entry whose decode error is classified fatal is
skipped — it is counted in `entriesSeen` and processing continues with
the remaining entries, it is not fatal to the task; (b) even when every
fetched entry decodes fatally the task completes, counts every entry and
still advances the watermark to `currentSize`; (c) an entry decoded
without a fatal error (in particular one with a merely non-fatal decode
error) is still processed: when its selected certificate matches a rule
and the write succeeds, its artifact is emitted. -/
theorem fatal_decode_skips_entry_and_continues (conf : Config)
    (pats : List GoRegex) (env : LogEnv) :
    (∀ idx e es acc, (env.decode idx e).isFatal = true →
      procEntries conf pats env idx (e :: es) acc =
        procEntries conf pats env (idx + 1) es
          { acc with entriesSeen := acc.entriesSeen + 1 }) ∧
    (∀ state ts entries, env.newClientOk = true →
      state.lastFetched ≠ 0 → env.sth = some ts → ts ≠ state.lastFetched →
      env.fetch (state.lastFetched + 1) ts = some entries →
      (∀ i e, (env.decode i e).isFatal = true) →
      (processLog conf pats env state).out =
        .ok { state with lastFetched := ts, lastFetchedTime := env.now } ∧
      (processLog conf pats env state).entriesSeen = entries.length) ∧
    (∀ e le acc c name descr, selectCert conf le = some c →
      nameMatches conf pats c = (true, name, descr) →
      env.marshalOk e = true → env.putOk acc.writeCount = true →
      entryBody conf pats env e le acc =
        .inl { acc with
          writeCount := acc.writeCount + 1
          calls := acc.calls ++ [.putArtifact name descr true]
          artifacts := acc.artifacts ++ [(name, descr)] }) := by
  refine ⟨?_, ?_, ?_⟩
  · intro idx e es acc h
    simp [procEntries, h]
  · intro state ts entries hnew h0 hsth hts hfetch hfatal
    unfold processLog
    rw [hnew, hsth]
    dsimp only
    rw [if_neg h0, if_neg hts, hfetch]
    dsimp only
    rw [procEntries_all_fatal conf pats env entries _ _ hfatal]
    refine ⟨rfl, ?_⟩
    show 0 + entries.length = entries.length
    omega
  · intro e le acc c name descr hsel hmatch hm hput
    unfold entryBody
    rw [hsel]
    simp [hmatch, hm, hput]

/-- C4 amended-claim witness: the skip-and-continue equation, the
all-fatal batch outcome, and the non-fatal match emission, each at a
concrete input. -/
theorem fatal_decode_skips_entry_and_continues_witness :
    (procEntries confA [] envFatalDecode 11 [⟨0⟩, ⟨1⟩] ⟨0, 0, [], []⟩ =
      procEntries confA [] envFatalDecode 12 [⟨1⟩] ⟨1, 0, [], []⟩) ∧
    ((processLog confA [] envAllFatal stWm10).out =
      .ok { stWm10 with lastFetched := 12, lastFetchedTime := 9 } ∧
     (processLog confA [] envAllFatal stWm10).entriesSeen = 2) ∧
    (entryBody confA [] envFatalDecode ⟨1⟩ googleEntry ⟨2, 0, [], []⟩ =
      .inl ⟨2, 1, [.putArtifact "www.google.com" "domain-google.com" true],
        [("www.google.com", "domain-google.com")]⟩) :=
  ⟨(fatal_decode_skips_entry_and_continues confA [] envFatalDecode).1
      11 ⟨0⟩ [⟨1⟩] ⟨0, 0, [], []⟩ rfl,
   (fatal_decode_skips_entry_and_continues confA [] envAllFatal).2.1
      stWm10 12 [⟨0⟩, ⟨1⟩] rfl (by decide) rfl (by decide) rfl
      (fun _ _ => rfl),
   (fatal_decode_skips_entry_and_continues confA [] envFatalDecode).2.2
      ⟨1⟩ googleEntry ⟨2, 0, [], []⟩ ⟨["www.google.com"]⟩
      "www.google.com" "domain-google.com" rfl rfl rfl rfl⟩

/-- Helper: the entry loop body never changes the `entriesSeen` counter
(only the caller bumps it). -/
theorem entryBody_inl_entriesSeen (conf : Config) (pats : List GoRegex)
    (env : LogEnv) (e : RawEntry) (le : CTLogEntry) (acc acc' : EntryAcc)
    (h : entryBody conf pats env e le acc = .inl acc') :
    acc'.entriesSeen = acc.entriesSeen := by
  unfold entryBody at h
  rcases hsel : selectCert conf le with _ | c <;> rw [hsel] at h
  · cases h; rfl
  · dsimp only at h
    rcases hnm : nameMatches conf pats c with ⟨b, nm, ds⟩
    rw [hnm] at h
    cases b
    · cases h; rfl
    · dsimp only at h
      by_cases hm : env.marshalOk e = true
      · rw [if_pos hm] at h
        by_cases hp : env.putOk acc.writeCount = true
        · rw [if_pos hp] at h
          cases h; rfl
        · rw [if_neg hp] at h
          cases h
      · rw [if_neg hm] at h
        cases h

/-- Helper: a batch consumed without a task error counts every fetched
entry exactly once in `entriesSeen`. -/
theorem procEntries_none_entriesSeen (conf : Config) (pats : List GoRegex)
    (env : LogEnv) (es : List RawEntry) :
    ∀ idx acc, (procEntries conf pats env idx es acc).2 = none →
      (procEntries conf pats env idx es acc).1.entriesSeen =
        acc.entriesSeen + es.length := by
  induction es with
  | nil => intro idx acc _; simp [procEntries]
  | cons e es ih =>
    intro idx acc h
    rw [procEntries] at h ⊢
    by_cases hf : (env.decode idx e).isFatal = true
    · rw [if_pos hf] at h ⊢
      rw [ih (idx + 1) _ h]
      simp only [List.length_cons]
      omega
    · rw [if_neg hf] at h ⊢
      try dsimp only at h ⊢
      rcases hb : entryBody conf pats env e (env.decode idx e).entry
          { acc with entriesSeen := acc.entriesSeen + 1 } with acc' | ⟨acc', err⟩
      · simp only [hb] at h ⊢
        rw [ih (idx + 1) _ h]
        rw [entryBody_inl_entriesSeen conf pats env e _ _ _ hb]
        simp only [List.length_cons]
        omega
      · simp [hb] at h

/-- Helper: every successful task outcome is either the prior state
unchanged or the prior state with its watermark advanced to the reported
tree size (and the timestamp refreshed). -/
theorem processLog_ok_cases (conf : Config) (pats : List GoRegex)
    (env : LogEnv) (st out : LogState)
    (hok : (processLog conf pats env st).out = .ok out) :
    out = st ∨ ∃ ts, env.sth = some ts ∧
      out = { st with lastFetched := ts, lastFetchedTime := env.now } := by
  unfold processLog at hok
  cases hnew : env.newClientOk with
  | false => rw [hnew] at hok; cases hok
  | true =>
    rw [hnew] at hok
    cases hsth : env.sth with
    | none =>
      rw [hsth] at hok
      cases hok
      exact Or.inl rfl
    | some ts =>
      rw [hsth] at hok
      dsimp only at hok
      by_cases h0 : st.lastFetched = 0
      · rw [if_pos h0] at hok
        cases hok
        exact Or.inr ⟨ts, rfl, rfl⟩
      · rw [if_neg h0] at hok
        by_cases hts : ts = st.lastFetched
        · rw [if_pos hts] at hok
          cases hok
          exact Or.inl rfl
        · rw [if_neg hts] at hok
          cases hfetch : env.fetch (st.lastFetched + 1) ts with
          | none =>
            rw [hfetch] at hok
            cases hok
            exact Or.inl rfl
          | some entries =>
            rw [hfetch] at hok
            dsimp only at hok
            rcases hpe : procEntries conf pats env (st.lastFetched + 1) entries
                ⟨0, 0, [], []⟩ with ⟨acc, err?⟩
            rw [hpe] at hok
            cases err? with
            | some err => cases hok
            | none =>
              cases hok
              exact Or.inr ⟨ts, rfl, rfl⟩

/-- C9: the persisted watermark of a log never decreases: (a) one run —
whatever its outcome: initialize, unchanged, advance, soft failure, or a
fatal abort that leaves the state file unwritten — never persists a
smaller watermark, provided the size the log reports is at least the
prior watermark; (b) across any sequence of runs in which the log only
grows (the spec's append-only size assumption, `sizesOK`), the watermark
is monotonically non-decreasing. -/
theorem watermark_monotone (conf : Config) (pats : List GoRegex) :
    (∀ env st, (∀ n, env.sth = some n → st.lastFetched ≤ n) →
      st.lastFetched ≤ (persistedAfter conf pats env st).lastFetched) ∧
    (∀ envs st, sizesOK conf pats st envs = true →
      st.lastFetched ≤ (runSeq conf pats envs st).lastFetched) := by
  have step : ∀ env st, (∀ n, env.sth = some n → st.lastFetched ≤ n) →
      st.lastFetched ≤ (persistedAfter conf pats env st).lastFetched := by
    intro env st h
    unfold persistedAfter
    cases hout : (processLog conf pats env st).out with
    | error e => exact Nat.le_refl _
    | ok out =>
      rcases processLog_ok_cases conf pats env st out hout with rfl | ⟨ts, hsth, rfl⟩
      · exact Nat.le_refl _
      · exact h ts hsth
  refine ⟨step, ?_⟩
  intro envs
  induction envs with
  | nil => intro st _; exact Nat.le_refl _
  | cons env envs ih =>
    intro st h
    rw [sizesOK, Bool.and_eq_true] at h
    refine Nat.le_trans (step env st ?_) (ih _ h.2)
    intro n hn
    rw [hn] at h
    exact of_decide_eq_true h.1

/-- C9 witness: a two-run sequence (one advancing run, one with a failed
size query) starting from watermark 10 satisfies the append-only
assumption and ends with a watermark at least 10. -/
theorem watermark_monotone_witness :
    sizesOK confA [] stWm10 [envGrow15, envSthErr] = true ∧
    stWm10.lastFetched ≤
      (runSeq confA [] [envGrow15, envSthErr] stWm10).lastFetched :=
  ⟨by decide,
   (watermark_monotone confA []).2 [envGrow15, envSthErr] stWm10 (by decide)⟩

/-- C10: whenever the range fetch succeeds and the task completes, the
outcome's watermark is the reported current size — whatever the length
of the returned batch — and exactly the returned entries are decoded
(`entriesSeen = entries.length`); entries of the gap beyond a truncated
batch are never decoded, and since the watermark jumps to `currentSize`
no later run fetches them either. -/
theorem truncated_batch_still_advances (conf : Config) (pats : List GoRegex)
    (env : LogEnv) (st out : LogState) (ts : Nat) (entries : List RawEntry)
    (hnew : env.newClientOk = true) (h0 : st.lastFetched ≠ 0)
    (hsth : env.sth = some ts) (hts : ts ≠ st.lastFetched)
    (hfetch : env.fetch (st.lastFetched + 1) ts = some entries)
    (hok : (processLog conf pats env st).out = .ok out) :
    out.lastFetched = ts ∧
    (processLog conf pats env st).entriesSeen = entries.length := by
  unfold processLog at hok ⊢
  rw [hnew, hsth] at hok ⊢
  dsimp only at hok ⊢
  rw [if_neg h0, if_neg hts, hfetch] at hok ⊢
  dsimp only at hok ⊢
  rcases hpe : procEntries conf pats env (st.lastFetched + 1) entries
      ⟨0, 0, [], []⟩ with ⟨acc, err?⟩
  rw [hpe] at hok
  cases err? with
  | some err => cases hok
  | none =>
    cases hok
    refine ⟨rfl, ?_⟩
    have hseen := procEntries_none_entriesSeen conf pats env entries
      (st.lastFetched + 1) ⟨0, 0, [], []⟩ (by rw [hpe])
    have hseen2 : acc.entriesSeen = 0 + entries.length := by
      rw [hpe] at hseen
      exact hseen
    show acc.entriesSeen = entries.length
    omega

/-- C10 witness: a log grown from 10 to 15 whose fetch returns a single
entry (four fewer than the gap) still ends with watermark 15 and decodes
exactly that one entry. -/
theorem truncated_batch_still_advances_witness :
    ({ stWm10 with lastFetched := 15, lastFetchedTime := 9 }
        : LogState).lastFetched = 15 ∧
    (processLog confA [] envTruncated stWm10).entriesSeen = 1 :=
  truncated_batch_still_advances confA [] envTruncated stWm10
    { stWm10 with lastFetched := 15, lastFetchedTime := 9 }
    15 [⟨11⟩] rfl (by decide) rfl (by decide) rfl rfl

/-- C6: (i) a failed artifact write for a matching entry is promoted to
a fatal task error (`putCertErr`); (ii) whenever the task fold reports a
fatal error, the run returns that error and the watermark file write is
never attempted — nothing is persisted; (iii) concretely, in a run where
log A soft-fails (keeping its in-memory watermark) and log B's artifact
write fails, the run aborts and neither log's watermark is persisted. -/
theorem artifact_write_failure_aborts_run :
    (∀ (conf : Config) (pats : List GoRegex) (env : LogEnv) e le acc c
        name descr,
      env.marshalOk e = true → env.putOk acc.writeCount = false →
      selectCert conf le = some c →
      nameMatches conf pats c = (true, name, descr) →
      entryBody conf pats env e le acc =
        .inr ({ acc with
          calls := acc.calls ++ [.putArtifact name descr false] },
          .putCertErr)) ∧
    (∀ (renv : RunEnv) conf logList pats trace e,
      renv.bucketSet = true → renv.awsOk = true →
      renv.confLoad = some conf → renv.listLoad = some logList →
      compilePatterns renv.compile conf.patterns = .ok pats →
      runTasks conf pats renv
          (launchStates (renv.stateLoad.getD []) logList)
          (renv.stateLoad.getD []) = (trace, .error e) →
      (handler renv).out = .error e ∧
      (handler renv).statesPutAttempted = false ∧
      (handler renv).statesWritten = none) ∧
    ((handler renvPutFail).out = .error (.taskErr .putCertErr) ∧
      (handler renvPutFail).statesPutAttempted = false ∧
      (handler renvPutFail).statesWritten = none) := by
  refine ⟨?_, ?_, rfl, rfl, rfl⟩
  · intro conf pats env e le acc c name descr hm hput hsel hmatch
    unfold entryBody
    rw [hsel]
    simp [hmatch, hm, hput]
  · intro renv conf logList pats trace e hb ha hc hl hp hr
    unfold handler
    rw [hb, ha, hc, hl]
    dsimp only
    rw [hp]
    dsimp only
    rw [hr]
    exact ⟨rfl, rfl, rfl⟩

/-- C6 witness: the task-level promotion applied at a concrete matching
entry with a failing write, and the run-level abort applied to the
concrete two-log run. -/
theorem artifact_write_failure_aborts_run_witness :
    (entryBody confA [] envPutFail ⟨0⟩ googleEntry ⟨1, 0, [], []⟩ =
      .inr (⟨1, 0, [.putArtifact "www.google.com" "domain-google.com" false],
        []⟩, .putCertErr)) ∧
    ((handler renvPutFail).out = .error (.taskErr .putCertErr) ∧
      (handler renvPutFail).statesPutAttempted = false ∧
      (handler renvPutFail).statesWritten = none) :=
  ⟨artifact_write_failure_aborts_run.1 confA [] envPutFail ⟨0⟩ googleEntry
      ⟨1, 0, [], []⟩ ⟨["www.google.com"]⟩ "www.google.com"
      "domain-google.com" rfl rfl rfl rfl,
   artifact_write_failure_aborts_run.2.1 renvPutFail confA [logRecA, logRecB]
      []
      [(logRecA.url, .getSTH), (logRecB.url, .getSTH),
        (logRecB.url, .getRawEntries 11 12),
        (logRecB.url,
          .putArtifact "www.google.com" "domain-google.com" false)]
      (.taskErr .putCertErr) rfl rfl rfl rfl rfl rfl⟩

/-- Helper: a configured pattern that fails to compile makes the
compilation loop fail with a `compileErr` (for the first such pattern
encountered). -/
theorem compilePatterns_mem_none (compile : String → Option (String → Bool)) :
    ∀ (ps : List String) (p : String), p ∈ ps → compile p = none →
      ∃ q, compilePatterns compile ps = .error (.compileErr q) ∧
        compile q = none := by
  intro ps
  induction ps with
  | nil => intro p hp; cases hp
  | cons a as ih =>
    intro p hp hbad
    cases ha : compile a with
    | none => exact ⟨a, by simp [compilePatterns, ha], ha⟩
    | some f =>
      rcases List.mem_cons.mp hp with rfl | hmem
      · rw [ha] at hbad; cases hbad
      · obtain ⟨q, hq, hqn⟩ := ih p hmem hbad
        refine ⟨q, ?_, hqn⟩
        simp [compilePatterns, ha, hq]

/-- C7: an invalid regex pattern in the loaded config fails the run
fatally during pattern compilation: the run returns a `compileErr`, no
call is ever made to any log source, and nothing is persisted — no sync
task runs. -/
theorem invalid_pattern_fails_before_logs (renv : RunEnv)
    (conf : Config) (logList : List LogRec) (p : String)
    (hb : renv.bucketSet = true) (ha : renv.awsOk = true)
    (hc : renv.confLoad = some conf) (hl : renv.listLoad = some logList)
    (hp : p ∈ conf.patterns) (hbad : renv.compile p = none) :
    (∃ q, (handler renv).out = .error (.compileErr q) ∧
      renv.compile q = none) ∧
    (handler renv).logCalls = [] ∧
    (handler renv).statesPutAttempted = false ∧
    (handler renv).statesWritten = none := by
  obtain ⟨q, hq, hqn⟩ := compilePatterns_mem_none renv.compile conf.patterns p hp hbad
  unfold handler
  rw [hb, ha, hc, hl]
  dsimp only
  rw [hq]
  exact ⟨⟨q, rfl, hqn⟩, rfl, rfl, rfl⟩

/-- C7 witness: the run with the invalid pattern `"("` fails before any
log call. -/
theorem invalid_pattern_fails_before_logs_witness :
    (∃ q, (handler renvBadPattern).out = .error (.compileErr q) ∧
      renvBadPattern.compile q = none) ∧
    (handler renvBadPattern).logCalls = [] ∧
    (handler renvBadPattern).statesPutAttempted = false ∧
    (handler renvBadPattern).statesWritten = none :=
  invalid_pattern_fails_before_logs renvBadPattern
    { confA with patterns := ["("] } [logRecA] "(" rfl rfl rfl rfl
    (List.mem_singleton.mpr rfl) rfl

/-- Helper: the task fold reads nothing of the run environment except
`logEnv`, so two environments agreeing on `logEnv` fold identically. -/
theorem runTasks_logEnv_congr (r1 r2 : RunEnv) (conf : Config)
    (pats : List GoRegex) (tasks : List (LogRec × LogState))
    (h : r1.logEnv = r2.logEnv) :
    ∀ states, runTasks conf pats r1 tasks states =
      runTasks conf pats r2 tasks states := by
  induction tasks with
  | nil => intro states; rfl
  | cons t rest ih =>
    intro states
    obtain ⟨l, st⟩ := t
    simp only [runTasks, h]
    cases (processLog conf pats (r2.logEnv l.url) st).out with
    | error e => rfl
    | ok outState =>
      dsimp only
      rw [ih]

/-- C8: (i) a failed watermark-store load is tolerated: the run behaves
exactly as if an empty map had been loaded; (ii) with an empty prior
map, every launched task starts from a fresh zero state
(`lastFetched = 0`), i.e. every log re-initialises; (iii) a config load
failure remains fatal; (iv) a catalog (log-list) load failure remains
fatal. -/
theorem missing_watermark_not_fatal :
    (∀ renv : RunEnv, handler { renv with stateLoad := none } =
      handler { renv with stateLoad := some [] }) ∧
    (∀ (logs : List LogRec) (l : LogRec) (st : LogState),
      (l, st) ∈ launchStates [] logs → st.lastFetched = 0) ∧
    (∀ renv : RunEnv, renv.bucketSet = true → renv.awsOk = true →
      renv.confLoad = none → (handler renv).out = .error .loadConfigErr) ∧
    (∀ (renv : RunEnv) conf, renv.bucketSet = true → renv.awsOk = true →
      renv.confLoad = some conf → renv.listLoad = none →
      (handler renv).out = .error .fetchLogListErr) := by
  refine ⟨?_, ?_, ?_, ?_⟩
  · intro renv
    have hcongr : ∀ (conf : Config) (pats : List GoRegex) tasks states,
        runTasks conf pats { renv with stateLoad := none } tasks states =
          runTasks conf pats { renv with stateLoad := some [] } tasks states :=
      fun conf pats tasks states =>
        runTasks_logEnv_congr { renv with stateLoad := none }
          { renv with stateLoad := some [] } conf pats tasks rfl states
    unfold handler
    simp only [hcongr, Option.getD_none, Option.getD_some]
  · intro logs l st h
    simp only [launchStates, List.mem_filterMap] at h
    obtain ⟨a, _, hfa⟩ := h
    split at hfa
    · cases hfa
      rfl
    · cases hfa
  · intro renv hb ha hc
    unfold handler
    rw [hb, ha, hc]
    rfl
  · intro renv conf hb ha hc hl
    unfold handler
    rw [hb, ha, hc, hl]
    rfl

/-- C8 witness: the equal-behaviour equation applied to the baseline run
environment, and the fatal config-load failure applied to a concrete
run. -/
theorem missing_watermark_not_fatal_witness :
    (handler { renvBase with stateLoad := none } =
      handler { renvBase with stateLoad := some [] }) ∧
    (handler renvConfErr).out = .error .loadConfigErr :=
  ⟨missing_watermark_not_fatal.1 renvBase,
   missing_watermark_not_fatal.2.2.1 renvConfErr rfl rfl rfl⟩

end CertMonitor
